import Mathlib

/-!
A verification development for the `mini-framework` virtual-DOM engine
(`src/mini-framework.js`).  The JavaScript values that flow through the
engine are shallowly embedded: a virtual-tree value is either `null`,
`undefined`, a text-like primitive ("Leaf"), or a virtual element node
`{tag, attrs, children}`.  Attribute values are either strings or
callback functions; a callback is identified by a numeric identity so
that the strict-equality (`!==`) tests of the source are decidable.
JavaScript objects have unique keys, so attribute mappings are embedded
as association lists (theorems that depend on key uniqueness carry an
explicit `Nodup` hypothesis).

The live presentation tree (the DOM) is embedded as an explicit tree
value, and every platform mutation the engine issues (attribute
set/remove, listener add/remove, child append/remove/replace, container
clear, mount-callback invocation) is recorded in a trace.  A thrown
JavaScript exception is modelled as `none` of an `Option` result.
-/

set_option autoImplicit false

namespace MiniFramework

/-- A text-like primitive value (JS string / number / boolean). -/
inductive Leaf where
  | str (s : String)
  | num (n : Int)
  | bool (b : Bool)
deriving DecidableEq, Repr

/-- An attribute value: a plain string or a callback function.  A
callback is identified by a numeric identity, so `fn i = fn j ↔ i = j`
models JavaScript reference equality of functions. -/
inductive AttrVal where
  | str (s : String)
  | fn (id : Nat)
deriving DecidableEq, Repr

/-- A JavaScript value as seen by the engine: `null`, `undefined`, a
Leaf primitive, or a virtual element node `{tag, attrs, children}`. -/
inductive JSVal where
  | null
  | undefined
  | leaf (l : Leaf)
  | vnode (tag : String) (attrs : List (String × AttrVal)) (children : List JSVal)
deriving Repr

mutual

def JSVal.beq : JSVal → JSVal → Bool
  | .null, .null => true
  | .undefined, .undefined => true
  | .leaf l₁, .leaf l₂ => decide (l₁ = l₂)
  | .vnode t₁ a₁ c₁, .vnode t₂ a₂ c₂ =>
      decide (t₁ = t₂) && decide (a₁ = a₂) && JSVal.beqList c₁ c₂
  | _, _ => false

def JSVal.beqList : List JSVal → List JSVal → Bool
  | [], [] => true
  | x :: xs, y :: ys => JSVal.beq x y && JSVal.beqList xs ys
  | _, _ => false

end

mutual

theorem JSVal.beq_iff_eq : ∀ a b : JSVal, JSVal.beq a b = true ↔ a = b
  | .null, b => by cases b <;> simp [JSVal.beq]
  | .undefined, b => by cases b <;> simp [JSVal.beq]
  | .leaf l, b => by cases b <;> simp [JSVal.beq]
  | .vnode t a c, b => by
      cases b <;> simp [JSVal.beq, JSVal.beqList_iff_eq c, and_assoc]

theorem JSVal.beqList_iff_eq : ∀ a b : List JSVal, JSVal.beqList a b = true ↔ a = b
  | [], b => by cases b <;> simp [JSVal.beqList]
  | x :: xs, b => by
      cases b <;> simp [JSVal.beqList, JSVal.beq_iff_eq x, JSVal.beqList_iff_eq xs]

end

instance : DecidableEq JSVal := fun a b =>
  decidable_of_iff (JSVal.beq a b = true) (JSVal.beq_iff_eq a b)

/-- `String(x)` for a Leaf, as used by `document.createTextNode`. -/
def jsString : Leaf → String
  | .str s => s
  | .num n => toString n
  | .bool b => toString b

/-- The loose-null test `x == null`, true exactly for `null` and
`undefined`. -/
def isAbsent : JSVal → Bool
  | .null => true
  | .undefined => true
  | _ => false

/-- JavaScript `typeof` on embedded values (`typeof null` is
`"object"`). -/
def typeOf : JSVal → String
  | .null => "object"
  | .undefined => "undefined"
  | .leaf (.str _) => "string"
  | .leaf (.num _) => "number"
  | .leaf (.bool _) => "boolean"
  | .vnode _ _ _ => "object"

/-- The `tag` field of a value (only element nodes have one). -/
def tagOf : JSVal → String
  | .vnode t _ _ => t
  | _ => ""


/-- `changed(node1, node2)` from the source: the difference classifier.
`node1 == null || node2 == null` short-circuits to the loose inequality
`node1 != node2`; then differing `typeof` means changed; primitives
compare by strict equality; objects compare by `tag`. -/
def changed (node1 node2 : JSVal) : Bool :=
  if isAbsent node1 || isAbsent node2 then
    -- `node1 != node2` under loose equality: null == undefined, and an
    -- absent value is loosely unequal to every present one here.
    !(isAbsent node1 && isAbsent node2)
  else if typeOf node1 ≠ typeOf node2 then true
  else if typeOf node1 ≠ "object" then decide (node1 ≠ node2)
  else decide (tagOf node1 ≠ tagOf node2)

/-- A live presentation-tree (DOM) node: a text node or an element with
literal attributes, registered event listeners, and child nodes. -/
inductive Dom where
  | text (s : String)
  | elem (tag : String) (attrs : List (String × AttrVal))
      (listeners : List (String × AttrVal)) (children : List Dom)
deriving Repr

mutual

def Dom.beq : Dom → Dom → Bool
  | .text s₁, .text s₂ => decide (s₁ = s₂)
  | .elem t₁ a₁ l₁ c₁, .elem t₂ a₂ l₂ c₂ =>
      decide (t₁ = t₂) && decide (a₁ = a₂) && decide (l₁ = l₂) && Dom.beqList c₁ c₂
  | _, _ => false

def Dom.beqList : List Dom → List Dom → Bool
  | [], [] => true
  | x :: xs, y :: ys => Dom.beq x y && Dom.beqList xs ys
  | _, _ => false

end

mutual

theorem Dom.beq_iff_dom : ∀ a b : Dom, Dom.beq a b = true ↔ a = b
  | .text s, b => by cases b <;> simp [Dom.beq]
  | .elem t a l c, b => by
      cases b <;> simp [Dom.beq, Dom.beqList_iff_dom c, and_assoc]

theorem Dom.beqList_iff_dom : ∀ a b : List Dom, Dom.beqList a b = true ↔ a = b
  | [], b => by cases b <;> simp [Dom.beqList]
  | x :: xs, b => by
      cases b <;> simp [Dom.beqList, Dom.beq_iff_dom x, Dom.beqList_iff_dom xs]

end

instance : DecidableEq Dom := fun a b =>
  decidable_of_iff (Dom.beq a b = true) (Dom.beq_iff_dom a b)

/-- `node.childNodes` of a live node (a text node has none). -/
def domChildren : Dom → List Dom
  | .text _ => []
  | .elem _ _ _ cs => cs

/-- One platform mutation issued by the engine against the live tree. -/
inductive Mutation where
  | clearChildren
  | setAttr (name : String) (value : AttrVal)
  | removeAttr (name : String)
  | bind (event : String) (callback : AttrVal)
  | unbind (event : String) (callback : AttrVal)
  | refCall (callback : AttrVal)
  | append (node : Dom)
  | remove (index : Nat)
  | replace (index : Nat) (node : Dom)
deriving Repr, DecidableEq

/-- First-match lookup in an attribute mapping (JS `obj[key]`, with
`none` for `undefined`; keys of a JS object are unique). -/
def alookup : List (String × AttrVal) → String → Option AttrVal
  | [], _ => none
  | (k, v) :: rest, a => if k = a then some v else alookup rest a

/-- `setAttribute` on an attribute mapping: overwrite the existing key
or add the entry at the end. -/
def setEntry : List (String × AttrVal) → String → AttrVal → List (String × AttrVal)
  | [], k, v => [(k, v)]
  | (k', v') :: rest, k, v =>
      if k' = k then (k, v) :: rest else (k', v') :: setEntry rest k v

/-- `removeAttribute` on an attribute mapping. -/
def removeEntry : List (String × AttrVal) → String → List (String × AttrVal)
  | [], _ => []
  | (k', v') :: rest, k => if k' = k then rest else (k', v') :: removeEntry rest k

/-- `removeEventListener`: drop the first registration matching the
(event, callback) pair. -/
def removeListener : List (String × AttrVal) → String → AttrVal → List (String × AttrVal)
  | [], _, _ => []
  | p :: rest, ev, f => if p = (ev, f) then rest else p :: removeListener rest ev f

/-- `attr.startsWith('on')`, written over the underlying character
list so that it evaluates inside the kernel. -/
def startsWithOn (s : String) : Bool :=
  match s.data with
  | 'o' :: 'n' :: _ => true
  | _ => false

/-- `attr.slice(2).toLowerCase()`: the event name obtained from an
event-prefixed attribute name (written over the character list so that
it evaluates inside the kernel). -/
def eventName (attr : String) : String := String.mk ((attr.data.drop 2).map Char.toLower)

/-- One step of the attribute loop of `createRealElement`: an
`on`-prefixed name registers a listener, the reserved name `ref`
invokes the callback with the element being built, anything else is a
literal `setAttribute`.  The accumulator is (attributes, listeners,
invoked ref callbacks). -/
def mountAttrsStep
    (acc : List (String × AttrVal) × List (String × AttrVal) × List AttrVal)
    (p : String × AttrVal) :
    List (String × AttrVal) × List (String × AttrVal) × List AttrVal :=
  if startsWithOn p.1 then (acc.1, acc.2.1 ++ [(eventName p.1, p.2)], acc.2.2)
  else if p.1 = "ref" then (acc.1, acc.2.1, acc.2.2 ++ [p.2])
  else (setEntry acc.1 p.1 p.2, acc.2.1, acc.2.2)

mutual

/-- `createRealElement(vNode)` from the source (the Materializer): a
non-object becomes a text node with its string representation (note
`typeof null` is `"object"`, so `null` dereferences `.tag` and throws,
modelled as `none`); an object becomes an element whose attributes are
processed by `mountAttrsStep` and whose children are materialized and
appended in order.  The second component of the result collects the
`ref` mount callbacks that were invoked, in invocation order. -/
def createRealElement : JSVal → Option (Dom × List AttrVal)
  | .null => none
  | .undefined => some (.text "undefined", [])
  | .leaf l => some (.text (jsString l), [])
  | .vnode t attrs cs =>
      match attrs.foldl mountAttrsStep ([], [], []) with
      | (as_, ls, rs) =>
        match createRealChildren cs with
        | none => none
        | some (ds, rcs) => some (.elem t as_ ls ds, rs ++ rcs)

def createRealChildren : List JSVal → Option (List Dom × List AttrVal)
  | [] => some ([], [])
  | c :: rest =>
      match createRealElement c with
      | none => none
      | some (d, r₁) =>
        match createRealChildren rest with
        | none => none
        | some (ds, r₂) => some (d :: ds, r₁ ++ r₂)

end

mutual

/-- `_deepCloneVNode(node)` from the source (the Snapshot Cloner):
primitives and absent values are returned as-is; an element node is
rebuilt with a copied attribute mapping and recursively cloned
children. -/
def deepCloneVNode : JSVal → JSVal
  | .null => .null
  | .undefined => .undefined
  | .leaf l => .leaf l
  | .vnode t attrs cs => .vnode t attrs (deepCloneChildren cs)

def deepCloneChildren : List JSVal → List JSVal
  | [] => []
  | c :: rest => deepCloneVNode c :: deepCloneChildren rest

end

/-- An argument to `createElement`'s variadic children parameter: a
plain value or an arbitrarily nested array. -/
inductive ChildArg where
  | val (v : JSVal)
  | arr (xs : List ChildArg)

mutual

def ChildArg.size : ChildArg → Nat
  | .val _ => 1
  | .arr xs => 1 + ChildArg.sizeList xs

def ChildArg.sizeList : List ChildArg → Nat
  | [] => 0
  | x :: xs => ChildArg.size x + ChildArg.sizeList xs

end

theorem ChildArg.sizeList_append (xs ys : List ChildArg) :
    ChildArg.sizeList (xs ++ ys) = ChildArg.sizeList xs + ChildArg.sizeList ys := by
  induction xs with
  | nil => simp [ChildArg.sizeList]
  | cons x xs ih => simp [ChildArg.sizeList, ih]; ring

/-- `Array.prototype.flat(Infinity)` over the argument list, modelled
with a work list the way engines traverse it: depth-first,
left-to-right. -/
def jsFlat : List ChildArg → List JSVal
  | [] => []
  | .val v :: rest => v :: jsFlat rest
  | .arr xs :: rest => jsFlat (xs ++ rest)
termination_by l => ChildArg.sizeList l
decreasing_by
  all_goals
    simp [ChildArg.sizeList, ChildArg.size, ChildArg.sizeList_append]

/-- `createElement(tag, attrs = {}, ...children)` from the source (the
Tree Builder): the children arguments are fully flattened and the
absent (`child != null` filters both `null` and `undefined`) entries
are dropped. -/
def createElement (tag : String) (attrs : List (String × AttrVal) := [])
    (children : List ChildArg := []) : JSVal :=
  .vnode tag attrs ((jsFlat children).filter (fun c => !(isAbsent c)))

/-- `node.attrs || {}`. -/
def attrsOf : JSVal → List (String × AttrVal)
  | .vnode _ a _ => a
  | _ => []

/-- `node.children || []`. -/
def childrenOf : JSVal → List JSVal
  | .vnode _ _ c => c
  | _ => []

/-! Platform operations against a possibly-absent live node `el`.  An
operation on `undefined` (`none`) or on a text node throws, modelled by
a `none` result; on an element it returns the updated element. -/

def setAttrOp : Option Dom → String → AttrVal → Option Dom
  | some (.elem t a l cs), k, v => some (.elem t (setEntry a k v) l cs)
  | _, _, _ => none

def removeAttrOp : Option Dom → String → Option Dom
  | some (.elem t a l cs), k => some (.elem t (removeEntry a k) l cs)
  | _, _ => none

def addListenerOp : Option Dom → String → AttrVal → Option Dom
  | some (.elem t a l cs), ev, f => some (.elem t a (l ++ [(ev, f)]) cs)
  | _, _, _ => none

def removeListenerOp : Option Dom → String → AttrVal → Option Dom
  | some (.elem t a l cs), ev, f => some (.elem t a (removeListener l ev f) cs)
  | _, _, _ => none

/-- The first attribute pass of `updateElement` (over
`Object.entries(newAttrs)`): an event-prefixed name missing from the
old attrs is bound as a listener; otherwise any entry whose value
differs from the old value is written with a plain `setAttribute`. -/
def patchNewAttrs (oldAttrs : List (String × AttrVal)) :
    Option Dom → List (String × AttrVal) → Option (Option Dom × List Mutation)
  | el, [] => some (el, [])
  | el, (attr, value) :: rest =>
    if startsWithOn attr ∧ alookup oldAttrs attr = none then
      match addListenerOp el (eventName attr) value with
      | none => none
      | some el' =>
        match patchNewAttrs oldAttrs (some el') rest with
        | none => none
        | some (e2, tr) => some (e2, .bind (eventName attr) value :: tr)
    else if alookup oldAttrs attr ≠ some value then
      match setAttrOp el attr value with
      | none => none
      | some el' =>
        match patchNewAttrs oldAttrs (some el') rest with
        | none => none
        | some (e2, tr) => some (e2, .setAttr attr value :: tr)
    else patchNewAttrs oldAttrs el rest

/-- The second attribute pass of `updateElement` (over the keys of
`oldAttrs`): an event-prefixed attribute is unbound when dropped, and
unbound-then-rebound when its value changed; a plain attribute missing
from the new attrs is removed. -/
def patchOldAttrs (newAttrs : List (String × AttrVal)) :
    Option Dom → List (String × AttrVal) → Option (Option Dom × List Mutation)
  | el, [] => some (el, [])
  | el, (attr, value) :: rest =>
    if startsWithOn attr then
      match alookup newAttrs attr with
      | none =>
        match removeListenerOp el (eventName attr) value with
        | none => none
        | some el' =>
          match patchOldAttrs newAttrs (some el') rest with
          | none => none
          | some (e2, tr) => some (e2, .unbind (eventName attr) value :: tr)
      | some w =>
        if value ≠ w then
          match removeListenerOp el (eventName attr) value with
          | none => none
          | some el' =>
            match addListenerOp (some el') (eventName attr) w with
            | none => none
            | some e2 =>
              match patchOldAttrs newAttrs (some e2) rest with
              | none => none
              | some (e3, tr) =>
                  some (e3, .unbind (eventName attr) value ::
                    .bind (eventName attr) w :: tr)
        else patchOldAttrs newAttrs el rest
    else if alookup newAttrs attr = none then
      match removeAttrOp el attr with
      | none => none
      | some el' =>
        match patchOldAttrs newAttrs (some el') rest with
        | none => none
        | some (e2, tr) => some (e2, .removeAttr attr :: tr)
    else patchOldAttrs newAttrs el rest

/-- Write the patched live child back at its slot (in JavaScript the
child is mutated in place; functionally the parent is rebuilt). -/
def writeChild (p : Dom) (index : Nat) : Option Dom → Dom
  | none => p
  | some e =>
    match p with
    | .elem t a l cs => .elem t a l (cs.set index e)
    | .text s => .text s

theorem JSVal.one_le_sizeOf : ∀ v : JSVal, 1 ≤ sizeOf v := by
  intro v; cases v <;> simp_arith

theorem JSVal.one_le_sizeOf_list : ∀ l : List JSVal, 1 ≤ sizeOf l := by
  intro l; cases l <;> simp_arith

theorem sizeOf_childrenOf_lt (v : JSVal) (h₁ : ¬ isAbsent v = true)
    (h₂ : typeOf v = "object") : sizeOf (childrenOf v) < sizeOf v := by
  cases v with
  | null => simp [isAbsent] at h₁
  | undefined => simp [isAbsent] at h₁
  | leaf l => cases l <;> simp [typeOf] at h₂
  | vnode t a c => simp_arith [childrenOf]

/-- `appendChild` on a possibly-absent parent: appends to an element,
throws (`none`) on `undefined` or a text node. -/
def appendChildOp : Option Dom → Dom → Option Dom
  | some (.elem t a l cs), d => some (.elem t a l (cs ++ [d]))
  | _, _ => none

/-- `parent.removeChild(parent.childNodes[index])`: removes the child
at `index` from an element parent; with `index` out of range the
argument is `undefined` and the call throws (`none`). -/
def removeChildOp : Option Dom → Nat → Option Dom
  | some (.elem t a l cs), index =>
      if index < cs.length then some (.elem t a l (cs.eraseIdx index)) else none
  | _, _ => none

/-- `parent.replaceChild(d, parent.childNodes[index])`: replaces the
child at `index` of an element parent; out of range throws (`none`). -/
def replaceChildOp : Option Dom → Nat → Dom → Option Dom
  | some (.elem t a l cs), index, d =>
      if index < cs.length then some (.elem t a l (cs.set index d)) else none
  | _, _, _ => none

mutual

/-- `updateElement(parent, newNode, oldNode, index)` from the source
(the Reconciler).  `parent` is `none` when the live parent of the slot
is `undefined` (dereferencing it throws).  The result is the updated
parent together with the trace of platform mutations; `none` models a
thrown exception. -/
def updateElement (parent : Option Dom) (newNode oldNode : JSVal) (index : Nat) :
    Option (Option Dom × List Mutation) :=
  if isAbsent oldNode then
    (createRealElement newNode).bind (fun dr =>
      (appendChildOp parent dr.1).map (fun p' =>
        (some p', dr.2.map .refCall ++ [.append dr.1])))
  else if isAbsent newNode then
    (removeChildOp parent index).map (fun p' => (some p', [.remove index]))
  else if changed newNode oldNode then
    (createRealElement newNode).bind (fun dr =>
      (replaceChildOp parent index dr.1).map (fun p' =>
        (some p', dr.2.map .refCall ++ [.replace index dr.1])))
  else if typeOf newNode ≠ "object" ∨ typeOf oldNode ≠ "object" then
    some (parent, [])
  else
    parent.bind (fun p =>
      (patchNewAttrs (attrsOf oldNode) ((domChildren p).get? index) (attrsOf newNode)).bind
        (fun et₁ =>
          (patchOldAttrs (attrsOf newNode) et₁.1 (attrsOf oldNode)).bind (fun et₂ =>
            (updateChildren et₂.1 (childrenOf newNode) (childrenOf oldNode) 0).map
              (fun et₃ => (some (writeChild p index et₃.1), et₁.2 ++ et₂.2 ++ et₃.2)))))
termination_by sizeOf newNode + sizeOf oldNode
decreasing_by
  have h₄ : ¬ (typeOf newNode ≠ "object" ∨ typeOf oldNode ≠ "object") := by assumption
  push_neg at h₄
  exact Nat.add_lt_add
    (sizeOf_childrenOf_lt _ (by assumption) h₄.1)
    (sizeOf_childrenOf_lt _ (by assumption) h₄.2)

/-- The children loop of `updateElement`: `for i in 0..max(lengths)`,
recursing with `newChildren[i]` or `null` and `oldChildren[i]` or
`null`. -/
def updateChildren (el : Option Dom) (newChildren oldChildren : List JSVal) (i : Nat) :
    Option (Option Dom × List Mutation) :=
  match newChildren, oldChildren with
  | [], [] => some (el, [])
  | n :: ns, [] =>
    (updateElement el n .null i).bind (fun r =>
      (updateChildren r.1 ns [] (i + 1)).map (fun r' => (r'.1, r.2 ++ r'.2)))
  | [], o :: os =>
    (updateElement el .null o i).bind (fun r =>
      (updateChildren r.1 [] os (i + 1)).map (fun r' => (r'.1, r.2 ++ r'.2)))
  | n :: ns, o :: os =>
    (updateElement el n o i).bind (fun r =>
      (updateChildren r.1 ns os (i + 1)).map (fun r' => (r'.1, r.2 ++ r'.2)))
termination_by sizeOf newChildren + sizeOf oldChildren
decreasing_by
  all_goals simp_arith

end

/-- The state that `render` sees for one render target: the target's
Snapshot Store entry (`_vDomTrees.get(container)`) and the target's
live node. -/
structure RenderState where
  snapshot : Option JSVal
  container : Dom
deriving Repr, DecidableEq

/-- JavaScript falsiness of a stored virtual-tree value: `null`,
`undefined`, the empty string, zero, and `false` are falsy; element
nodes are objects and therefore always truthy. -/
def jsFalsy : JSVal → Bool
  | .null => true
  | .undefined => true
  | .leaf (.str "") => true
  | .leaf (.num 0) => true
  | .leaf (.bool b) => !b
  | _ => false

/-- The full-rebuild path of `render`: `container.innerHTML = ''`, then
`container.appendChild(createRealElement(vNode))` (`appendChild` on a
text container throws; a thrown exception is `none` and records no
final state), then store the deep clone of `vNode`. -/
def renderMount (vNode : JSVal) (s : RenderState) : Option (RenderState × List Mutation) :=
  match s.container with
  | .elem t a l _ =>
      (createRealElement vNode).bind (fun dr =>
        some (RenderState.mk (some (deepCloneVNode vNode)) (.elem t a l [dr.1]),
          .clearChildren :: (dr.2.map .refCall ++ [.append dr.1])))
  | .text _ => none

/-- `render(vNode, container)` from the source.  `const oldVNode =
this._vDomTrees.get(container)` yields the stored tree or `undefined`,
and `if (!oldVNode)` tests JavaScript *falsiness*: an absent entry and
a stored falsy value (a snapshot of `""`, `0`, `false`, or `null`) all
take the full-rebuild path; any other stored tree is reconciled via
`updateElement`.  On success the deep clone of `vNode` is always stored
as the new snapshot, replacing the prior entry. -/
def render (vNode : JSVal) (s : RenderState) : Option (RenderState × List Mutation) :=
  match s.snapshot with
  | none => renderMount vNode s
  | some oldVNode =>
    if jsFalsy oldVNode then renderMount vNode s
    else
      (updateElement (some s.container) vNode oldVNode 0).map (fun r =>
        (RenderState.mk (some (deepCloneVNode vNode)) (r.1.getD s.container), r.2))

/-! ### Spec-side notions used to state the claims -/

/-- The runtime category of a value, as the spec's Difference
Classifier speaks of it: a VirtualNode, or one of the Leaf categories;
absent values have no category. -/
inductive RuntimeCategory where
  | virtualNode
  | leafString
  | leafNumber
  | leafBoolean
deriving DecidableEq, Repr

def runtimeCategory : JSVal → Option RuntimeCategory
  | .null => none
  | .undefined => none
  | .leaf (.str _) => some .leafString
  | .leaf (.num _) => some .leafNumber
  | .leaf (.bool _) => some .leafBoolean
  | .vnode _ _ _ => some .virtualNode

def isLeafVal : JSVal → Bool
  | .leaf _ => true
  | _ => false

def isVNodeVal : JSVal → Bool
  | .vnode _ _ _ => true
  | _ => false

/-- C3: for present values, the classifier reports incompatible exactly
for categorically different values, unequal Leaves, or VirtualNodes of
differing tag; and two VirtualNodes of equal tag are never
incompatible, whatever their attrs and children. -/
theorem claim_C3 :
    (∀ n o : JSVal, isAbsent n = false → isAbsent o = false →
      (changed n o = true ↔
        (runtimeCategory n ≠ runtimeCategory o ∨
         (isLeafVal n = true ∧ isLeafVal o = true ∧ n ≠ o) ∨
         (isVNodeVal n = true ∧ isVNodeVal o = true ∧ tagOf n ≠ tagOf o)))) ∧
    (∀ t a₁ c₁ a₂ c₂, changed (.vnode t a₁ c₁) (.vnode t a₂ c₂) = false) := by
  constructor
  · intro n o hn ho
    cases n <;> cases o <;>
      simp_all [changed, isAbsent, typeOf, tagOf, runtimeCategory, isLeafVal, isVNodeVal]
    case leaf.leaf l₁ l₂ =>
      cases l₁ <;> cases l₂ <;>
        simp_all [changed, typeOf, runtimeCategory]
    case leaf.vnode l t a c =>
      cases l <;> simp [typeOf, runtimeCategory]
    case vnode.leaf t a c l =>
      cases l <;> simp [typeOf, runtimeCategory]
  · intro t a₁ c₁ a₂ c₂
    simp [changed, isAbsent, typeOf, tagOf]

theorem claim_C3_witness :
    isAbsent (.leaf (.str "a")) = false ∧
    changed (.leaf (.str "a")) (.vnode "div" [] []) = true :=
  ⟨by decide,
   (claim_C3.1 (.leaf (.str "a")) (.vnode "div" [] []) (by decide) (by decide)).mpr
     (Or.inl (by decide))⟩

/-- C10: when both classifier arguments are absent, in any mix of
`null` and `undefined`, they are reported unchanged; when exactly one
is absent they are reported changed. -/
theorem claim_C10 :
    ∀ a b : JSVal, (isAbsent a = true ∨ isAbsent b = true) →
      (changed a b = false ↔ (isAbsent a = true ∧ isAbsent b = true)) := by
  intro a b h
  cases a <;> cases b <;> simp_all [changed, isAbsent]

theorem claim_C10_witness :
    (isAbsent JSVal.null = true ∨ isAbsent JSVal.undefined = true) ∧
    changed JSVal.null JSVal.undefined = false :=
  ⟨Or.inl rfl, (claim_C10 .null .undefined (Or.inl rfl)).mpr ⟨rfl, rfl⟩⟩

/-! ### The Tree Builder (C5) -/

mutual

/-- Modelled from the spec's words: the fully flattened sequence of a
children argument, defined by naive structural flattening (to be
compared with the work-list `jsFlat` implementing `flat(Infinity)`). -/
def specFlatten : ChildArg → List JSVal
  | .val v => [v]
  | .arr xs => specFlattenList xs

def specFlattenList : List ChildArg → List JSVal
  | [] => []
  | x :: xs => specFlatten x ++ specFlattenList xs

end

theorem specFlattenList_append (xs ys : List ChildArg) :
    specFlattenList (xs ++ ys) = specFlattenList xs ++ specFlattenList ys := by
  induction xs with
  | nil => simp [specFlattenList]
  | cons x xs ih => simp [specFlattenList, ih]

theorem jsFlat_eq_specFlattenList : ∀ l : List ChildArg, jsFlat l = specFlattenList l := by
  have main : ∀ n (l : List ChildArg), ChildArg.sizeList l ≤ n →
      jsFlat l = specFlattenList l := by
    intro n
    induction n with
    | zero =>
      intro l hl
      cases l with
      | nil => simp [jsFlat, specFlattenList]
      | cons x xs => cases x <;> simp [ChildArg.sizeList, ChildArg.size] at hl
    | succ n ih =>
      intro l hl
      match l with
      | [] => simp [jsFlat, specFlattenList]
      | .val v :: rest =>
        simp only [jsFlat, specFlattenList, specFlatten]
        rw [ih rest (by simp [ChildArg.sizeList, ChildArg.size] at hl; omega)]
        simp
      | .arr xs :: rest =>
        simp only [jsFlat]
        rw [ih (xs ++ rest)
          (by simp [ChildArg.sizeList_append] at hl ⊢
              simp [ChildArg.sizeList, ChildArg.size] at hl; omega)]
        simp [specFlattenList_append, specFlattenList, specFlatten]
  intro l; exact main (ChildArg.sizeList l) l le_rfl

/-- C5: the Tree Builder produces a node whose children are the fully
flattened arguments with the absent entries removed, in order; in
particular no constructed node's children contain an absent entry, and
the children are an order-preserving subsequence of the flattened
arguments. -/
theorem claim_C5 :
    ∀ (t : String) (a : List (String × AttrVal)) (args : List ChildArg),
      createElement t a args =
        .vnode t a ((specFlattenList args).filter (fun c => !(isAbsent c))) ∧
      (∀ v ∈ childrenOf (createElement t a args), isAbsent v = false) ∧
      List.Sublist (childrenOf (createElement t a args)) (specFlattenList args) := by
  intro t a args
  refine ⟨by simp [createElement, jsFlat_eq_specFlattenList], ?_, ?_⟩
  · intro v hv
    simp [createElement, childrenOf, List.mem_filter] at hv
    simpa using hv.2
  · simp only [createElement, childrenOf, jsFlat_eq_specFlattenList]
    exact List.filter_sublist _

theorem claim_C5_witness :
    createElement "div" [] [.arr [.val (.leaf (.str "a")), .val .null],
        .val .undefined, .arr [.arr [.val (.vnode "p" [] [])]]] =
      .vnode "div" [] [.leaf (.str "a"), .vnode "p" [] []] ∧
    isAbsent (.leaf (.str "a")) = false := by
  have h := claim_C5 "div" []
    [.arr [.val (.leaf (.str "a")), .val .null],
      .val .undefined, .arr [.arr [.val (.vnode "p" [] [])]]]
  refine ⟨by rw [h.1]; rfl, h.2.1 (.leaf (.str "a")) ?_⟩
  rw [h.1]
  simp [childrenOf, specFlattenList, specFlatten, isAbsent]

/-! ### Reconciler slot behavior: replace (C7), attribute diff (C6),
children length change (C1) -/

/-- C7: when both nodes are present and the classifier reports them
incompatible, the Reconciler materializes the new node and replaces the
live child at `index` with it; the trace shows only the mount's ref
invocations and the single replacement — no in-place attribute
mutation of the old live node and no further work for the slot. -/
theorem claim_C7 :
    ∀ (n o : JSVal) (t : String) (a l : List (String × AttrVal)) (cs : List Dom)
      (index : Nat) (d : Dom) (refs : List AttrVal),
      isAbsent n = false → isAbsent o = false → changed n o = true →
      createRealElement n = some (d, refs) → index < cs.length →
      updateElement (some (.elem t a l cs)) n o index =
        some (some (.elem t a l (cs.set index d)),
          refs.map .refCall ++ [.replace index d]) := by
  intro n o t a l cs index d refs hn ho hc hm hi
  simp [updateElement, hn, ho, hc, hm, hi, replaceChildOp]

theorem claim_C7_witness :
    isAbsent (.vnode "span" [] []) = false ∧ isAbsent (.vnode "div" [] []) = false ∧
    changed (.vnode "span" [] []) (.vnode "div" [] []) = true ∧
    updateElement (some (.elem "body" [] [] [.elem "div" [] [] []]))
        (.vnode "span" [] []) (.vnode "div" [] []) 0 =
      some (some (.elem "body" [] [] [.elem "span" [] [] []]),
        [.replace 0 (.elem "span" [] [] [])]) :=
  ⟨rfl, rfl, by decide,
    claim_C7 (.vnode "span" [] []) (.vnode "div" [] []) "body" [] [] [.elem "div" [] [] []]
      0 (.elem "span" [] [] []) [] rfl rfl (by decide) rfl (by decide)⟩

/-- C6: patching old attrs `{class:"a", id:"x"}` against new attrs
`{class:"b"}` on same-tag nodes issues exactly `setAttribute("class",
"b")` and `removeAttribute("id")` — the full mutation trace is those
two operations, so no attribute absent from both mappings is set,
removed, bound, or unbound. -/
theorem claim_C6 :
    updateElement
      (some (.elem "body" [] [] [.elem "p" [("class", .str "a"), ("id", .str "x")] [] []]))
      (.vnode "p" [("class", .str "b")] [])
      (.vnode "p" [("class", .str "a"), ("id", .str "x")] []) 0 =
    some (some (.elem "body" [] [] [.elem "p" [("class", .str "b")] [] []]),
      [.setAttr "class" (.str "b"), .removeAttr "id"]) := by
  simp +decide [updateElement, updateChildren, changed, isAbsent, typeOf, tagOf,
    patchNewAttrs, patchOldAttrs, alookup, setEntry, removeEntry, domChildren,
    writeChild, attrsOf, childrenOf, setAttrOp, removeAttrOp, startsWithOn]

/-- C1 (code bug documentation): with live children matching the old
virtual children, shrinking children length 3 → 1 removes the live
child at index 1 and then evaluates `removeChild(childNodes[2])` on a
parent that has only two children left — `childNodes[2]` is
`undefined`, so the call throws (`none`) and the originally third child
is never removed; growing 1 → 3 appends the two new children (at
positions 1 and 2) and diffs position 0 in place. -/
theorem claim_C1_code_behavior :
    updateElement
      (some (.elem "body" [] [] [.elem "div" [] [] [.text "a", .text "b", .text "c"]]))
      (.vnode "div" [] [.leaf (.str "a")])
      (.vnode "div" [] [.leaf (.str "a"), .leaf (.str "b"), .leaf (.str "c")]) 0 = none ∧
    updateElement
      (some (.elem "body" [] [] [.elem "div" [] [] [.text "a"]]))
      (.vnode "div" [] [.leaf (.str "a"), .leaf (.str "b"), .leaf (.str "c")])
      (.vnode "div" [] [.leaf (.str "a")]) 0 =
      some (some (.elem "body" [] [] [.elem "div" [] [] [.text "a", .text "b", .text "c"]]),
        [.append (.text "b"), .append (.text "c")]) := by
  constructor <;>
    simp +decide [updateElement, updateChildren, changed, isAbsent, typeOf, tagOf,
      createRealElement, createRealChildren, patchNewAttrs, patchOldAttrs, alookup,
      domChildren, writeChild, attrsOf, childrenOf, jsString, startsWithOn]

/-! ### The attribute patch passes (C4) -/

/-- The mutations the first (new-attrs) pass issues for one entry, as
the spec describes them: bind an event-prefixed name missing from the
old attrs; otherwise issue a plain attribute set whenever the value
differs — even for an existing event-prefixed name. -/
def newAttrStep (oldA : List (String × AttrVal)) (p : String × AttrVal) : List Mutation :=
  if startsWithOn p.1 ∧ alookup oldA p.1 = none then [.bind (eventName p.1) p.2]
  else if alookup oldA p.1 ≠ some p.2 then [.setAttr p.1 p.2]
  else []

/-- The mutations the second (old-attrs) pass issues for one entry, as
the spec describes them: an event-prefixed attribute is unbound when
dropped, unbound-then-rebound when its value changed, and untouched
when identical; a plain attribute missing from the new attrs is
removed. -/
def oldAttrStep (newA : List (String × AttrVal)) (p : String × AttrVal) : List Mutation :=
  if startsWithOn p.1 then
    match alookup newA p.1 with
    | none => [.unbind (eventName p.1) p.2]
    | some w =>
      if p.2 ≠ w then [.unbind (eventName p.1) p.2, .bind (eventName p.1) w] else []
  else if alookup newA p.1 = none then [.removeAttr p.1]
  else []

theorem patchNewAttrs_run (oldA : List (String × AttrVal)) :
    ∀ (newA : List (String × AttrVal)) (t : String) (a l : List (String × AttrVal))
      (cs : List Dom),
      ∃ t' a' l' cs',
        patchNewAttrs oldA (some (.elem t a l cs)) newA =
          some (some (.elem t' a' l' cs'), newA.flatMap (newAttrStep oldA)) := by
  intro newA
  induction newA with
  | nil => intro t a l cs; exact ⟨t, a, l, cs, by simp [patchNewAttrs]⟩
  | cons p rest ih =>
    intro t a l cs
    obtain ⟨k, v⟩ := p
    by_cases h₁ : startsWithOn k = true ∧ alookup oldA k = none
    · obtain ⟨t', a', l', cs', hrec⟩ := ih t a (l ++ [(eventName k, v)]) cs
      exact ⟨t', a', l', cs', by simp [patchNewAttrs, h₁, addListenerOp, hrec, newAttrStep]⟩
    · by_cases h₂ : alookup oldA k = some v
      · obtain ⟨t', a', l', cs', hrec⟩ := ih t a l cs
        exact ⟨t', a', l', cs', by simp [patchNewAttrs, h₁, h₂, newAttrStep, hrec]⟩
      · obtain ⟨t', a', l', cs', hrec⟩ := ih t (setEntry a k v) l cs
        exact ⟨t', a', l', cs',
          by simp [patchNewAttrs, h₁, h₂, setAttrOp, hrec, newAttrStep]⟩

theorem patchOldAttrs_run (newA : List (String × AttrVal)) :
    ∀ (oldA : List (String × AttrVal)) (t : String) (a l : List (String × AttrVal))
      (cs : List Dom),
      ∃ t' a' l' cs',
        patchOldAttrs newA (some (.elem t a l cs)) oldA =
          some (some (.elem t' a' l' cs'), oldA.flatMap (oldAttrStep newA)) := by
  intro oldA
  induction oldA with
  | nil => intro t a l cs; exact ⟨t, a, l, cs, by simp [patchOldAttrs]⟩
  | cons p rest ih =>
    intro t a l cs
    obtain ⟨k, v⟩ := p
    by_cases h₁ : startsWithOn k = true
    · match hw : alookup newA k with
      | none =>
        obtain ⟨t', a', l', cs', hrec⟩ := ih t a (removeListener l (eventName k) v) cs
        exact ⟨t', a', l', cs',
          by simp [patchOldAttrs, h₁, hw, removeListenerOp, hrec, oldAttrStep]⟩
      | some w =>
        by_cases h₂ : v = w
        · subst h₂
          obtain ⟨t', a', l', cs', hrec⟩ := ih t a l cs
          exact ⟨t', a', l', cs',
            by simp [patchOldAttrs, h₁, hw, oldAttrStep, hrec]⟩
        · obtain ⟨t', a', l', cs', hrec⟩ :=
            ih t a (removeListener l (eventName k) v ++ [(eventName k, w)]) cs
          exact ⟨t', a', l', cs',
            by simp [patchOldAttrs, h₁, hw, h₂, removeListenerOp, addListenerOp,
              hrec, oldAttrStep]⟩
    · by_cases h₂ : alookup newA k = none
      · obtain ⟨t', a', l', cs', hrec⟩ := ih t (removeEntry a k) l cs
        exact ⟨t', a', l', cs',
          by simp [patchOldAttrs, h₁, h₂, removeAttrOp, hrec, oldAttrStep]⟩
      · obtain ⟨t', a', l', cs', hrec⟩ := ih t a l cs
        exact ⟨t', a', l', cs', by simp [patchOldAttrs, h₁, h₂, oldAttrStep, hrec]⟩

/-- C4: on an element, the new-attrs pass issues exactly
`newAttrStep` per entry (bind for an event name missing from old attrs,
otherwise a plain set on any value difference — including an existing
event-prefixed name), and the old-attrs pass issues exactly
`oldAttrStep` per entry; in particular a changed event attribute is
unbound from the old callback and bound to the new one, and an
identical event attribute triggers no unbind or bind in either pass. -/
theorem claim_C4 :
    ∀ (t : String) (a l oldA newA : List (String × AttrVal)) (cs : List Dom),
      (∃ t' a' l' cs',
        patchNewAttrs oldA (some (.elem t a l cs)) newA =
          some (some (.elem t' a' l' cs'), newA.flatMap (newAttrStep oldA))) ∧
      (∃ t' a' l' cs',
        patchOldAttrs newA (some (.elem t a l cs)) oldA =
          some (some (.elem t' a' l' cs'), oldA.flatMap (oldAttrStep newA))) ∧
      (∀ p : String × AttrVal, startsWithOn p.1 = true → alookup oldA p.1 ≠ none →
        alookup oldA p.1 ≠ some p.2 → newAttrStep oldA p = [.setAttr p.1 p.2]) ∧
      (∀ (p : String × AttrVal) (w : AttrVal), startsWithOn p.1 = true →
        alookup newA p.1 = some w → p.2 ≠ w →
        oldAttrStep newA p = [.unbind (eventName p.1) p.2, .bind (eventName p.1) w]) ∧
      (∀ p : String × AttrVal, startsWithOn p.1 = true → alookup newA p.1 = some p.2 →
        oldAttrStep newA p = [] ∧ newAttrStep newA p = []) := by
  intro t a l oldA newA cs
  refine ⟨patchNewAttrs_run oldA newA t a l cs, patchOldAttrs_run newA oldA t a l cs,
    ?_, ?_, ?_⟩
  · intro p h₁ h₂ h₃
    simp [newAttrStep, h₁, h₃]
    intro h; exact absurd h h₂
  · intro p w h₁ hw h₂
    simp [oldAttrStep, h₁, hw, h₂]
  · intro p h₁ hw
    constructor
    · simp [oldAttrStep, h₁, hw]
    · simp [newAttrStep, h₁, hw]

theorem claim_C4_witness :
    startsWithOn "onClick" = true ∧
    oldAttrStep [("onClick", .fn 2)] ("onClick", .fn 1) =
      [.unbind "click" (.fn 1), .bind "click" (.fn 2)] ∧
    oldAttrStep [("onClick", .fn 1)] ("onClick", .fn 1) = [] :=
  ⟨by decide,
   (claim_C4 "p" [] [] [("onClick", .fn 1)] [("onClick", .fn 2)] []).2.2.2.1
     ("onClick", .fn 1) (.fn 2) (by decide) (by decide) (by decide),
   ((claim_C4 "p" [] [] [("onClick", .fn 1)] [("onClick", .fn 1)] []).2.2.2.2
     ("onClick", .fn 1) (by decide) (by decide)).1⟩

/-! ### Well-formed virtual trees and the Materializer (C8) -/

mutual

/-- A well-formed virtual tree: a Leaf, or an element node whose
attribute keys are unique (they come from a JS object) and whose
children are recursively well-formed — in particular no absent entries,
which is what the Tree Builder guarantees (C5). -/
def wfTree : JSVal → Bool
  | .leaf _ => true
  | .vnode _ a cs => decide ((a.map Prod.fst).Nodup) && wfTreeList cs
  | _ => false

def wfTreeList : List JSVal → Bool
  | [] => true
  | c :: rest => wfTree c && wfTreeList rest

end

/-- Modelled from the spec's words: the attributes set literally on the
live node — every attribute that is neither event-prefixed nor the
reserved mount-callback name. -/
def plainAttrsSpec (attrs : List (String × AttrVal)) : List (String × AttrVal) :=
  attrs.filter (fun p => !(startsWithOn p.1) && !(decide (p.1 = "ref")))

/-- Modelled from the spec's words: the event bindings of the live
node — each event-prefixed attribute, with the 2-character prefix
stripped and the remainder lower-cased. -/
def listenersSpec (attrs : List (String × AttrVal)) : List (String × AttrVal) :=
  (attrs.filter (fun p => startsWithOn p.1)).map (fun p => (eventName p.1, p.2))

/-- Modelled from the spec's words: the mount callbacks invoked with
the created live node instead of being set as attributes. -/
def refsSpec (attrs : List (String × AttrVal)) : List AttrVal :=
  (attrs.filter (fun p => !(startsWithOn p.1) && decide (p.1 = "ref"))).map Prod.snd

theorem setEntry_of_not_mem :
    ∀ (A : List (String × AttrVal)) (k : String) (v : AttrVal),
      k ∉ A.map Prod.fst → setEntry A k v = A ++ [(k, v)] := by
  intro A k v
  induction A with
  | nil => intro _; simp [setEntry]
  | cons p rest ih =>
    intro h
    obtain ⟨k', v'⟩ := p
    simp only [List.map_cons, List.mem_cons, not_or] at h
    have hk : ¬ (k' = k) := fun hh => h.1 hh.symm
    simp [setEntry, hk, ih h.2]

theorem mountAttrsStep_fold :
    ∀ (attrs A L : List (String × AttrVal)) (R : List AttrVal),
      (∀ p ∈ plainAttrsSpec attrs, p.1 ∉ A.map Prod.fst) →
      ((plainAttrsSpec attrs).map Prod.fst).Nodup →
      attrs.foldl mountAttrsStep (A, L, R) =
        (A ++ plainAttrsSpec attrs, L ++ listenersSpec attrs, R ++ refsSpec attrs) := by
  intro attrs
  induction attrs with
  | nil => intro A L R _ _; simp [plainAttrsSpec, listenersSpec, refsSpec]
  | cons p rest ih =>
    intro A L R hA hN
    obtain ⟨k, v⟩ := p
    by_cases h₁ : startsWithOn k = true
    · have hplain : plainAttrsSpec ((k, v) :: rest) = plainAttrsSpec rest := by
        simp [plainAttrsSpec, h₁]
      rw [hplain] at hA hN
      simp only [List.foldl_cons, mountAttrsStep, h₁, if_pos]
      rw [ih A (L ++ [(eventName k, v)]) R hA hN]
      simp [plainAttrsSpec, listenersSpec, refsSpec, h₁]
    · by_cases h₂ : k = "ref"
      · subst h₂
        have hplain : plainAttrsSpec (("ref", v) :: rest) = plainAttrsSpec rest := by
          simp +decide [plainAttrsSpec]
        rw [hplain] at hA hN
        simp only [List.foldl_cons, mountAttrsStep]
        rw [if_neg h₁, if_pos trivial, ih A L (R ++ [v]) hA hN]
        simp [plainAttrsSpec, listenersSpec, refsSpec, h₁]
      · have hplain : plainAttrsSpec ((k, v) :: rest) = (k, v) :: plainAttrsSpec rest := by
          simp [plainAttrsSpec, h₁, h₂]
        rw [hplain] at hA hN
        simp only [List.map_cons, List.nodup_cons] at hN
        have hkA : k ∉ A.map Prod.fst := hA (k, v) (by simp)
        have hA' : ∀ p ∈ plainAttrsSpec rest, p.1 ∉ (A ++ [(k, v)]).map Prod.fst := by
          intro p hp
          have hmem := hA p (List.mem_cons_of_mem _ hp)
          have hne : p.1 ≠ k := by
            intro he
            exact hN.1 (he ▸ List.mem_map_of_mem Prod.fst hp)
          simp [List.map_append, hmem, hne]
        simp only [List.foldl_cons, mountAttrsStep, h₁, h₂, if_neg, Bool.false_eq_true,
          ite_false]
        rw [setEntry_of_not_mem A k v hkA, ih (A ++ [(k, v)]) L R hA' hN.2]
        have hl : listenersSpec ((k, v) :: rest) = listenersSpec rest := by
          simp [listenersSpec, h₁]
        have hr : refsSpec ((k, v) :: rest) = refsSpec rest := by
          simp [refsSpec, h₁, h₂]
        simp [hplain, hl, hr]

/-- The spec's notion of the live tree produced by materializing a
virtual tree: same tag and child order at every position, a Leaf
becomes a text node with the value's string representation,
event-prefixed attributes become bindings under the stripped
lower-cased event name, plain attributes are set literally, and the
`ref` mount callbacks are invoked (collected in order, own node's
before the children's) instead of being set. -/
inductive LiveIso : JSVal → Dom → List AttrVal → Prop where
  | leaf (l : Leaf) : LiveIso (.leaf l) (.text (jsString l)) []
  | node (t : String) (attrs : List (String × AttrVal)) (cs : List JSVal)
      (dcs : List (Dom × List AttrVal)) :
      List.Forall₂ (fun c dr => LiveIso c dr.1 dr.2) cs dcs →
      LiveIso (.vnode t attrs cs)
        (.elem t (plainAttrsSpec attrs) (listenersSpec attrs) (dcs.map Prod.fst))
        (refsSpec attrs ++ (dcs.map Prod.snd).flatten)

mutual

theorem createRealElement_iso : ∀ v : JSVal, wfTree v = true →
    ∃ d refs, createRealElement v = some (d, refs) ∧ LiveIso v d refs
  | .null => by intro h; simp [wfTree] at h
  | .undefined => by intro h; simp [wfTree] at h
  | .leaf l => fun _ => ⟨.text (jsString l), [], rfl, LiveIso.leaf l⟩
  | .vnode t a cs => by
      intro h
      simp only [wfTree, Bool.and_eq_true, decide_eq_true_eq] at h
      obtain ⟨dcs, hm, hf⟩ := createRealChildren_iso cs h.2
      have hnodup : ((plainAttrsSpec a).map Prod.fst).Nodup :=
        h.1.sublist ((List.filter_sublist a).map Prod.fst)
      refine ⟨.elem t (plainAttrsSpec a) (listenersSpec a) (dcs.map Prod.fst),
        refsSpec a ++ (dcs.map Prod.snd).flatten, ?_, LiveIso.node t a cs dcs hf⟩
      simp only [createRealElement]
      rw [mountAttrsStep_fold a [] [] [] (by simp) hnodup]
      simp [hm]

theorem createRealChildren_iso : ∀ cs : List JSVal, wfTreeList cs = true →
    ∃ dcs : List (Dom × List AttrVal),
      createRealChildren cs = some (dcs.map Prod.fst, (dcs.map Prod.snd).flatten) ∧
      List.Forall₂ (fun c dr => LiveIso c dr.1 dr.2) cs dcs
  | [] => fun _ => ⟨[], by simp [createRealChildren], List.Forall₂.nil⟩
  | c :: rest => by
      intro h
      simp only [wfTreeList, Bool.and_eq_true] at h
      obtain ⟨d, refs, hd, hiso⟩ := createRealElement_iso c h.1
      obtain ⟨dcs, hrest, hf⟩ := createRealChildren_iso rest h.2
      exact ⟨(d, refs) :: dcs, by simp [createRealChildren, hd, hrest],
        List.Forall₂.cons hiso hf⟩

end

/-- C8: rendering a well-formed tree into a target with no prior
Snapshot succeeds, clears the target, and appends a single live tree
that is isomorphic to the virtual tree in the spec's sense
(`LiveIso`), with the `ref` mount callbacks invoked rather than set. -/
theorem claim_C8 :
    ∀ (T : JSVal) (s : RenderState) (t : String) (a l : List (String × AttrVal))
      (cs₀ : List Dom),
      wfTree T = true → s.snapshot = none → s.container = .elem t a l cs₀ →
      ∃ d refs, createRealElement T = some (d, refs) ∧
        render T s = some (RenderState.mk (some (deepCloneVNode T)) (.elem t a l [d]),
          .clearChildren :: (refs.map .refCall ++ [.append d])) ∧
        LiveIso T d refs := by
  intro T s t a l cs₀ hwf hsnap hcont
  obtain ⟨d, refs, hm, hiso⟩ := createRealElement_iso T hwf
  exact ⟨d, refs, hm, by simp [render, renderMount, hsnap, hcont, hm], hiso⟩

theorem claim_C8_witness :
    wfTree (.vnode "div" [("id", .str "x"), ("onClick", .fn 1), ("ref", .fn 2)]
      [.leaf (.str "hi")]) = true ∧
    (∃ d refs,
      createRealElement (.vnode "div" [("id", .str "x"), ("onClick", .fn 1), ("ref", .fn 2)]
        [.leaf (.str "hi")]) = some (d, refs) ∧
      render (.vnode "div" [("id", .str "x"), ("onClick", .fn 1), ("ref", .fn 2)]
          [.leaf (.str "hi")])
          { snapshot := none, container := .elem "app" [] [] [] } =
        some (RenderState.mk (some (deepCloneVNode (.vnode "div"
              [("id", .str "x"), ("onClick", .fn 1), ("ref", .fn 2)] [.leaf (.str "hi")])))
            (.elem "app" [] [] [d]),
          .clearChildren :: (refs.map .refCall ++ [.append d])) ∧
      LiveIso (.vnode "div" [("id", .str "x"), ("onClick", .fn 1), ("ref", .fn 2)]
        [.leaf (.str "hi")]) d refs) :=
  ⟨by decide,
   claim_C8 (.vnode "div" [("id", .str "x"), ("onClick", .fn 1), ("ref", .fn 2)]
       [.leaf (.str "hi")])
     { snapshot := none, container := .elem "app" [] [] [] }
     "app" [] [] [] (by decide) rfl rfl⟩

/-! ### Idempotence of render (C2) -/

theorem list_set_get?_self {α : Type} : ∀ (l : List α) (i : Nat) (a : α),
    l.get? i = some a → l.set i a = l := by
  intro l
  induction l with
  | nil => intro i a h; simp at h
  | cons x xs ih =>
    intro i a h
    cases i with
    | zero =>
      simp only [List.get?_cons_zero, Option.some.injEq] at h
      simp [h]
    | succ n =>
      simp only [List.get?_cons_succ] at h
      simp [ih n a h]

theorem alookup_self : ∀ (a : List (String × AttrVal)),
    (a.map Prod.fst).Nodup → ∀ p ∈ a, alookup a p.1 = some p.2 := by
  intro a
  induction a with
  | nil => intro _ p hp; simp at hp
  | cons q rest ih =>
    intro hN p hp
    obtain ⟨k, v⟩ := q
    simp only [List.map_cons, List.nodup_cons] at hN
    rcases List.mem_cons.mp hp with h | h
    · subst h; simp [alookup]
    · have hk : ¬ (k = p.1) := by
        intro he; exact hN.1 (he ▸ List.mem_map_of_mem Prod.fst h)
      simp [alookup, hk, ih hN.2 p h]

/-- When every new-attrs entry already has the same value in the old
attrs, the first pass issues nothing and leaves the element alone. -/
theorem patchNewAttrs_noop : ∀ (rest : List (String × AttrVal)) (el : Option Dom)
    (oldA : List (String × AttrVal)),
    (∀ p ∈ rest, alookup oldA p.1 = some p.2) →
    patchNewAttrs oldA el rest = some (el, []) := by
  intro rest
  induction rest with
  | nil => intro el oldA _; simp [patchNewAttrs]
  | cons p rest ih =>
    intro el oldA h
    obtain ⟨k, v⟩ := p
    have hk := h (k, v) (by simp)
    simp [patchNewAttrs, hk, ih el oldA (fun q hq => h q (List.mem_cons_of_mem _ hq))]

/-- When every old-attrs entry still has the same value in the new
attrs, the second pass issues nothing and leaves the element alone. -/
theorem patchOldAttrs_noop : ∀ (rest : List (String × AttrVal)) (el : Option Dom)
    (newA : List (String × AttrVal)),
    (∀ p ∈ rest, alookup newA p.1 = some p.2) →
    patchOldAttrs newA el rest = some (el, []) := by
  intro rest
  induction rest with
  | nil => intro el newA _; simp [patchOldAttrs]
  | cons p rest ih =>
    intro el newA h
    obtain ⟨k, v⟩ := p
    have hk := h (k, v) (by simp)
    simp [patchOldAttrs, hk, ih el newA (fun q hq => h q (List.mem_cons_of_mem _ hq))]

mutual

/-- Reconciling a well-formed tree against its own deep clone, with the
live child at the slot being exactly the materialization of the tree,
touches nothing: no mutation is issued and the parent is unchanged. -/
theorem updateElement_self : ∀ (v : JSVal) (p : Dom) (i : Nat) (d : Dom)
    (refs : List AttrVal),
    wfTree v = true → createRealElement v = some (d, refs) →
    (domChildren p).get? i = some d →
    updateElement (some p) v (deepCloneVNode v) i = some (some p, [])
  | .null => by intro p i d refs h; simp [wfTree] at h
  | .undefined => by intro p i d refs h; simp [wfTree] at h
  | .leaf l => by
      intro p i d refs _ _ _
      cases l <;>
        simp +decide [updateElement, deepCloneVNode, isAbsent, changed, typeOf]
  | .vnode t a cs => by
      intro p i d refs hwf hm hel
      simp only [wfTree, Bool.and_eq_true, decide_eq_true_eq] at hwf
      simp only [createRealElement] at hm
      rcases hfold : a.foldl mountAttrsStep ([], [], []) with ⟨A, L, R⟩
      rw [hfold] at hm
      rcases hcc : createRealChildren cs with _ | ⟨ds, rcs⟩ <;> rw [hcc] at hm
      · simp at hm
      · simp only [Option.some.injEq, Prod.mk.injEq] at hm
        obtain ⟨hmd, hmr⟩ := hm
        subst hmd
        subst hmr
        have hch : changed (.vnode t a cs) (.vnode t a (deepCloneChildren cs)) = false := by
          simp [changed, isAbsent, typeOf, tagOf]
        have hnoop1 : patchNewAttrs a (some (Dom.elem t A L ds)) a =
            some (some (Dom.elem t A L ds), []) :=
          patchNewAttrs_noop a _ a (alookup_self a hwf.1)
        have hnoop2 : patchOldAttrs a (some (Dom.elem t A L ds)) a =
            some (some (Dom.elem t A L ds), []) :=
          patchOldAttrs_noop a _ a (alookup_self a hwf.1)
        have hkids : updateChildren (some (Dom.elem t A L ds)) cs
            (deepCloneChildren cs) 0 = some (some (Dom.elem t A L ds), []) := by
          refine updateChildren_self cs (Dom.elem t A L ds) 0 ds rcs hwf.2 hcc ?_
          intro j hj
          simp [domChildren, List.get?_eq_get hj]
        cases p with
        | text => simp [domChildren] at hel
        | elem tp ap lp csp =>
          simp only [domChildren] at hel
          have hset : csp.set i (Dom.elem t A L ds) = csp :=
            list_set_get?_self csp i _ hel
          have hel₂ : csp[i]? = some (Dom.elem t A L ds) := by simpa using hel
          simp +decide [updateElement, deepCloneVNode, isAbsent, hch, typeOf,
            attrsOf, childrenOf, domChildren, hel₂, hnoop1, hnoop2, hkids,
            writeChild, hset]

theorem updateChildren_self : ∀ (cs : List JSVal) (p : Dom) (i : Nat) (ds : List Dom)
    (rcs : List AttrVal),
    wfTreeList cs = true → createRealChildren cs = some (ds, rcs) →
    (∀ j (h : j < ds.length), (domChildren p).get? (i + j) = some (ds.get ⟨j, h⟩)) →
    updateChildren (some p) cs (deepCloneChildren cs) i = some (some p, [])
  | [] => by
      intro p i ds rcs _ hcc _
      simp only [createRealChildren, Option.some.injEq] at hcc
      simp [deepCloneChildren, updateChildren]
  | c :: rest => by
      intro p i ds rcs hwf hcc hcond
      simp only [wfTreeList, Bool.and_eq_true] at hwf
      simp only [createRealChildren] at hcc
      rcases hd : createRealElement c with _ | ⟨d₀, r₀⟩ <;> rw [hd] at hcc
      · simp at hcc
      · rcases hrest : createRealChildren rest with _ | ⟨ds₁, r₁⟩ <;> rw [hrest] at hcc
        · simp at hcc
        · simp only [Option.some.injEq, Prod.mk.injEq] at hcc
          obtain ⟨hds, hrcs⟩ := hcc
          subst hds
          have h₀ : (domChildren p).get? i = some d₀ := by
            have := hcond 0 (by simp)
            simpa using this
          have hshift : ∀ j (h : j < ds₁.length),
              (domChildren p).get? (i + 1 + j) = some (ds₁.get ⟨j, h⟩) := by
            intro j hj
            have := hcond (j + 1) (by simp; omega)
            have harith : i + (j + 1) = i + 1 + j := by omega
            rw [harith] at this
            simpa [List.get] using this
          simp only [deepCloneChildren, updateChildren]
          simp [updateElement_self c p i d₀ r₀ hwf.1 hd h₀,
            updateChildren_self rest p (i + 1) ds₁ r₁ hwf.2 hrest hshift]

end

theorem render_stores_clone :
    ∀ (v : JSVal) (s r : RenderState) (tr : List Mutation),
      render v s = some (r, tr) → r.snapshot = some (deepCloneVNode v) := by
  intro v s r tr h
  have hmount : renderMount v s = some (r, tr) → r.snapshot = some (deepCloneVNode v) := by
    intro h₂
    rcases hcont : s.container with str | ⟨t, a, l, cs⟩ <;>
      simp only [renderMount, hcont] at h₂
    · exact absurd h₂ (by simp)
    · rcases hm : createRealElement v with _ | ⟨d, refs⟩ <;> rw [hm] at h₂
      · simp at h₂
      · simp only [Option.some_bind, Option.some.injEq, Prod.mk.injEq] at h₂
        obtain ⟨h₃, -⟩ := h₂
        rw [← h₃]
  rcases hsnap : s.snapshot with _ | old <;> simp only [render, hsnap] at h
  · exact hmount h
  · by_cases hf : jsFalsy old = true
    · rw [if_pos hf] at h
      exact hmount h
    · rw [if_neg hf] at h
      rcases hup : updateElement (some s.container) v old 0 with _ | ⟨p', tr'⟩ <;>
        rw [hup] at h
      · simp at h
      · simp only [Option.map_some', Option.some.injEq, Prod.mk.injEq] at h
        obtain ⟨h₃, -⟩ := h
        rw [← h₃]

mutual

/-- Reconciling a well-formed tree against its own deep clone issues no
platform mutation whatever the live parent looks like: on every parent
(even `undefined` or a text node, as arises when the live tree was
desynchronized externally) the call either throws before touching
anything or returns the parent unchanged with an empty trace. -/
theorem updateElement_clone : ∀ (v : JSVal) (parent : Option Dom) (i : Nat),
    wfTree v = true →
    updateElement parent v (deepCloneVNode v) i = none ∨
    updateElement parent v (deepCloneVNode v) i = some (parent, [])
  | .null, parent, i => by intro h; simp [wfTree] at h
  | .undefined, parent, i => by intro h; simp [wfTree] at h
  | .leaf l, parent, i => by
      intro _
      right
      cases l <;>
        simp +decide [updateElement, deepCloneVNode, isAbsent, changed, typeOf]
  | .vnode t a cs, parent, i => by
      intro hwf
      simp only [wfTree, Bool.and_eq_true, decide_eq_true_eq] at hwf
      have hself := alookup_self a hwf.1
      have hch : changed (.vnode t a cs) (.vnode t a (deepCloneChildren cs)) = false := by
        simp [changed, isAbsent, typeOf, tagOf]
      cases parent with
      | none =>
        left
        simp +decide [updateElement, deepCloneVNode, isAbsent, hch, typeOf]
      | some p =>
        rcases hel : (domChildren p).get? i with _ | e
        · have hel₂ : (domChildren p)[i]? = none := by simpa using hel
          rcases updateChildren_clone cs none 0 hwf.2 with hk | hk
          · left
            simp +decide [updateElement, deepCloneVNode, isAbsent, hch, typeOf,
              attrsOf, childrenOf, hel₂, patchNewAttrs_noop a none a hself,
              patchOldAttrs_noop a none a hself, hk]
          · right
            simp +decide [updateElement, deepCloneVNode, isAbsent, hch, typeOf,
              attrsOf, childrenOf, hel₂, patchNewAttrs_noop a none a hself,
              patchOldAttrs_noop a none a hself, hk, writeChild]
        · have hel₂ : (domChildren p)[i]? = some e := by simpa using hel
          rcases updateChildren_clone cs (some e) 0 hwf.2 with hk | hk
          · left
            simp +decide [updateElement, deepCloneVNode, isAbsent, hch, typeOf,
              attrsOf, childrenOf, hel₂, patchNewAttrs_noop a (some e) a hself,
              patchOldAttrs_noop a (some e) a hself, hk]
          · right
            cases p with
            | text => simp [domChildren] at hel
            | elem tp ap lp csp =>
              simp only [domChildren] at hel hel₂
              have hset : csp.set i e = csp := list_set_get?_self csp i e hel
              simp +decide [updateElement, deepCloneVNode, isAbsent, hch, typeOf,
                attrsOf, childrenOf, domChildren, hel₂,
                patchNewAttrs_noop a (some e) a hself,
                patchOldAttrs_noop a (some e) a hself, hk, writeChild, hset]

theorem updateChildren_clone : ∀ (cs : List JSVal) (el : Option Dom) (i : Nat),
    wfTreeList cs = true →
    updateChildren el cs (deepCloneChildren cs) i = none ∨
    updateChildren el cs (deepCloneChildren cs) i = some (el, [])
  | [], el, i => by intro _; right; simp [deepCloneChildren, updateChildren]
  | c :: rest, el, i => by
      intro h
      simp only [wfTreeList, Bool.and_eq_true] at h
      rcases updateElement_clone c el i h.1 with hc | hc
      · left
        simp [deepCloneChildren, updateChildren, hc]
      · rcases updateChildren_clone rest el (i + 1) h.2 with hr | hr
        · left
          simp [deepCloneChildren, updateChildren, hc, hr]
        · right
          simp [deepCloneChildren, updateChildren, hc, hr]

end

/-- C2: for a well-formed element-rooted tree T (render's documented
input is a VirtualNode, and an object is always truthy, so the stored
snapshot never triggers the falsiness rebuild), after ANY successful
render of T into a target — full mount or reconcile path alike — an
immediately following render of a structurally identical tree issues
zero platform mutations: it returns the very same state with an empty
mutation trace, except on a target whose live tree was desynchronized
externally, where the second call throws (modelled `none`) without the
model recording any mutation; on a target with no prior Snapshot the
second call moreover always succeeds with zero mutations. -/
theorem claim_C2 :
    ∀ (T : JSVal), wfTree T = true → isVNodeVal T = true →
      (∀ (s s₁ : RenderState) (tr₁ : List Mutation),
        render T s = some (s₁, tr₁) →
        render T s₁ = none ∨ render T s₁ = some (s₁, [])) ∧
      (∀ (s s₁ : RenderState) (tr₁ : List Mutation),
        s.snapshot = none → render T s = some (s₁, tr₁) →
        render T s₁ = some (s₁, [])) := by
  intro T hwf hvn
  obtain ⟨t, a, cs, rfl⟩ : ∃ t a cs, T = .vnode t a cs := by
    cases T with
    | vnode t a cs => exact ⟨t, a, cs, rfl⟩
    | _ => simp [isVNodeVal] at hvn
  have hfals : jsFalsy (deepCloneVNode (.vnode t a cs)) = false := by
    simp [deepCloneVNode, jsFalsy]
  constructor
  · intro s s₁ tr₁ hr
    have hsnap : s₁.snapshot = some (deepCloneVNode (.vnode t a cs)) :=
      render_stores_clone _ s s₁ tr₁ hr
    rcases updateElement_clone (.vnode t a cs) (some s₁.container) 0 hwf with hu | hu
    · left
      simp [render, hsnap, hfals, hu]
    · right
      rcases s₁ with ⟨snap₁, cont₁⟩
      simp only at hsnap
      subst hsnap
      simp [render, hfals, hu]
  · intro s s₁ tr₁ hsnap hr
    simp only [render, hsnap] at hr
    rcases hcont : s.container with str | ⟨ct, ca, cl, cs₀⟩ <;>
      simp only [renderMount, hcont] at hr
    · exact absurd hr (by simp)
    · rcases hm : createRealElement (.vnode t a cs) with _ | ⟨d, refs⟩ <;> rw [hm] at hr
      · simp at hr
      · simp only [Option.some_bind, Option.some.injEq, Prod.mk.injEq] at hr
        obtain ⟨hs₁, -⟩ := hr
        subst hs₁
        have hup := updateElement_self (.vnode t a cs) (.elem ct ca cl [d]) 0 d refs hwf hm
          (by simp [domChildren])
        simp [render, hfals, hup]

theorem claim_C2_witness :
    wfTree (.vnode "div" [("id", .str "x")] [.leaf (.str "hi")]) = true ∧
    isVNodeVal (.vnode "div" [("id", .str "x")] [.leaf (.str "hi")]) = true ∧
    (RenderState.mk none (.elem "app" [] [] [])).snapshot = none ∧
    render (.vnode "div" [("id", .str "x")] [.leaf (.str "hi")])
        (RenderState.mk none (.elem "app" [] [] [])) =
      some (RenderState.mk
          (some (.vnode "div" [("id", .str "x")] [.leaf (.str "hi")]))
          (.elem "app" [] []
            [.elem "div" [("id", .str "x")] [] [.text "hi"]]),
        [.clearChildren,
          .append (.elem "div" [("id", .str "x")] [] [.text "hi"])]) ∧
    render (.vnode "div" [("id", .str "x")] [.leaf (.str "hi")])
        (RenderState.mk
          (some (.vnode "div" [("id", .str "x")] [.leaf (.str "hi")]))
          (.elem "app" [] []
            [.elem "div" [("id", .str "x")] [] [.text "hi"]])) =
      some (RenderState.mk
          (some (.vnode "div" [("id", .str "x")] [.leaf (.str "hi")]))
          (.elem "app" [] []
            [.elem "div" [("id", .str "x")] [] [.text "hi"]]),
        []) :=
  ⟨by decide, rfl, rfl, rfl,
    (claim_C2 (.vnode "div" [("id", .str "x")] [.leaf (.str "hi")])
        (by decide) rfl).2
      (RenderState.mk none (.elem "app" [] [] []))
      (RenderState.mk
        (some (.vnode "div" [("id", .str "x")] [.leaf (.str "hi")]))
        (.elem "app" [] []
          [.elem "div" [("id", .str "x")] [] [.text "hi"]]))
      [.clearChildren,
        .append (.elem "div" [("id", .str "x")] [] [.text "hi"])]
      rfl rfl⟩

/-! ### The Snapshot Cloner (C9)

The functional model cannot observe allocation, so the cloner is
additionally verified on an address-carrying refinement `AVal` of the
virtual-tree values: every mutable container of a node (the node
object, its attrs mapping, its children array) carries the address it
was allocated at, and the clone allocates only fresh addresses.
`strip` erases the addresses and ties `cloneAddr` back to the source
`_deepCloneVNode` as embedded by `deepCloneVNode`.  The theorem
`render_stores_clone` (stated with the C2 development above) shows both
`render` paths store the clone. -/

/-- A virtual-tree value whose mutable containers carry allocation
addresses: a node records the address of the node object itself, of its
attrs mapping, and of its children array. -/
inductive AVal where
  | null
  | undefined
  | leaf (l : Leaf)
  | node (objAddr attrsAddr childrenAddr : Nat) (tag : String)
      (attrs : List (String × AttrVal)) (children : List AVal)

mutual

/-- Erase the addresses, recovering the plain virtual-tree value. -/
def strip : AVal → JSVal
  | .null => .null
  | .undefined => .undefined
  | .leaf l => .leaf l
  | .node _ _ _ t as cs => .vnode t as (stripList cs)

def stripList : List AVal → List JSVal
  | [] => []
  | c :: rest => strip c :: stripList rest

end

mutual

/-- All container addresses reachable in a value, at any depth. -/
def addrs : AVal → List Nat
  | .node o a c _ _ cs => o :: a :: c :: addrsList cs
  | _ => []

def addrsList : List AVal → List Nat
  | [] => []
  | c :: rest => addrs c ++ addrsList rest

end

mutual

/-- `_deepCloneVNode` on addressed values: absent values and Leaves are
returned as-is; a node allocates a fresh clone object (`{tag:
node.tag}`), a fresh attrs mapping with the entries shallow-copied, and
a fresh children array holding the recursively cloned children.  The
second component is the next-fresh-address counter. -/
def cloneAddr : AVal → Nat → AVal × Nat
  | .node _ _ _ t as cs, n =>
      match cloneAddrList cs (n + 2) with
      | (cs', n') => (.node n (n + 1) n' t as cs', n' + 1)
  | v, n => (v, n)

def cloneAddrList : List AVal → Nat → List AVal × Nat
  | [], n => ([], n)
  | c :: rest, n =>
      match cloneAddr c n with
      | (c', n') =>
        match cloneAddrList rest n' with
        | (rest', n2) => (c' :: rest', n2)

end

mutual

theorem cloneAddr_le : ∀ (a : AVal) (n : Nat), n ≤ (cloneAddr a n).2
  | .null, n => by simp [cloneAddr]
  | .undefined, n => by simp [cloneAddr]
  | .leaf l, n => by simp [cloneAddr]
  | .node o aa ca t as cs, n => by
      have h := cloneAddrList_le cs (n + 2)
      simp only [cloneAddr]
      rcases hc : cloneAddrList cs (n + 2) with ⟨cs', n'⟩
      rw [hc] at h
      simp at h ⊢
      omega

theorem cloneAddrList_le : ∀ (l : List AVal) (n : Nat), n ≤ (cloneAddrList l n).2
  | [], n => by simp [cloneAddrList]
  | c :: rest, n => by
      have h₁ := cloneAddr_le c n
      simp only [cloneAddrList]
      rcases hc : cloneAddr c n with ⟨c', n'⟩
      have h₂ := cloneAddrList_le rest n'
      rcases hr : cloneAddrList rest n' with ⟨rest', n2⟩
      rw [hc] at h₁
      rw [hr] at h₂
      simp at h₁ h₂ ⊢
      omega

end

mutual

theorem cloneAddr_addrs_ge : ∀ (a : AVal) (n y : Nat),
    y ∈ addrs (cloneAddr a n).1 → n ≤ y
  | .null, n, y => by simp [cloneAddr, addrs]
  | .undefined, n, y => by simp [cloneAddr, addrs]
  | .leaf l, n, y => by simp [cloneAddr, addrs]
  | .node o aa ca t as cs, n, y => by
      intro hy
      have hle := cloneAddrList_le cs (n + 2)
      simp only [cloneAddr] at hy
      rcases hc : cloneAddrList cs (n + 2) with ⟨cs', n'⟩
      rw [hc] at hy hle
      simp only at hle
      simp only [addrs, List.mem_cons] at hy
      rcases hy with rfl | hy
      · exact le_refl _
      rcases hy with rfl | hy
      · omega
      rcases hy with rfl | hy
      · omega
      · have := cloneAddrList_addrs_ge cs (n + 2) y (by rw [hc]; exact hy)
        omega

theorem cloneAddrList_addrs_ge : ∀ (l : List AVal) (n y : Nat),
    y ∈ addrsList (cloneAddrList l n).1 → n ≤ y
  | [], n, y => by simp [cloneAddrList, addrsList]
  | c :: rest, n, y => by
      intro hy
      have h₁ := cloneAddr_le c n
      simp only [cloneAddrList] at hy
      rcases hc : cloneAddr c n with ⟨c', n'⟩
      rw [hc] at hy h₁
      rcases hr : cloneAddrList rest n' with ⟨rest', n2⟩
      rw [hr] at hy
      simp only at h₁
      simp only [addrsList, List.mem_append] at hy
      rcases hy with hy | hy
      · exact cloneAddr_addrs_ge c n y (by rw [hc]; exact hy)
      · have := cloneAddrList_addrs_ge rest n' y (by rw [hr]; exact hy)
        omega

end

mutual

theorem cloneAddr_strip : ∀ (a : AVal) (n : Nat),
    strip (cloneAddr a n).1 = deepCloneVNode (strip a)
  | .null, n => by simp [cloneAddr, strip, deepCloneVNode]
  | .undefined, n => by simp [cloneAddr, strip, deepCloneVNode]
  | .leaf l, n => by simp [cloneAddr, strip, deepCloneVNode]
  | .node o aa ca t as cs, n => by
      have h := cloneAddrList_strip cs (n + 2)
      simp only [cloneAddr, strip, deepCloneVNode]
      rcases hc : cloneAddrList cs (n + 2) with ⟨cs', n'⟩
      rw [hc] at h
      simp only at h
      simp [strip, h]

theorem cloneAddrList_strip : ∀ (l : List AVal) (n : Nat),
    stripList (cloneAddrList l n).1 = deepCloneChildren (stripList l)
  | [], n => by simp [cloneAddrList, stripList, deepCloneChildren]
  | c :: rest, n => by
      have h₁ := cloneAddr_strip c n
      simp only [cloneAddrList]
      rcases hc : cloneAddr c n with ⟨c', n'⟩
      have h₂ := cloneAddrList_strip rest n'
      rcases hr : cloneAddrList rest n' with ⟨rest', n2⟩
      rw [hc] at h₁
      rw [hr] at h₂
      simp only at h₁ h₂
      simp [stripList, deepCloneChildren, h₁, h₂]

end

/-- C9: every successful render stores `deepCloneVNode` of the given
tree as the new snapshot, replacing any prior entry; and on the
addressed refinement the cloner returns Leaves as-is, reproduces
exactly the value computed by the source cloner (`strip` commutes), and
allocates only fresh addresses, so the clone shares no mutable
container (node object, attrs mapping, or children array, at any
depth) with the input tree. -/
theorem claim_C9 :
    (∀ (v : JSVal) (s r : RenderState) (tr : List Mutation),
      render v s = some (r, tr) → r.snapshot = some (deepCloneVNode v)) ∧
    (∀ (l : Leaf) (n : Nat), cloneAddr (.leaf l) n = (.leaf l, n)) ∧
    (∀ (a : AVal) (n : Nat),
      (∀ x ∈ addrs a, x < n) →
      strip (cloneAddr a n).1 = deepCloneVNode (strip a) ∧
      ∀ y ∈ addrs (cloneAddr a n).1, y ∉ addrs a) := by
  refine ⟨render_stores_clone, fun l n => rfl, ?_⟩
  intro a n hlt
  refine ⟨cloneAddr_strip a n, ?_⟩
  intro y hy hmem
  have h₁ := cloneAddr_addrs_ge a n y hy
  have h₂ := hlt y hmem
  omega

theorem claim_C9_witness :
    strip (cloneAddr (.node 0 1 2 "div" [("id", .str "x")] [.leaf (.str "hi")]) 3).1 =
      deepCloneVNode (strip (.node 0 1 2 "div" [("id", .str "x")] [.leaf (.str "hi")])) ∧
    (∀ y ∈ addrs (cloneAddr (.node 0 1 2 "div" [("id", .str "x")]
        [.leaf (.str "hi")]) 3).1,
      y ∉ addrs (.node 0 1 2 "div" [("id", .str "x")] [.leaf (.str "hi")])) ∧
    (RenderState.mk (some (.vnode "p" [] []))
        (.elem "app" [] [] [.elem "p" [] [] []])).snapshot =
      some (deepCloneVNode (.vnode "p" [] [])) :=
  ⟨(claim_C9.2.2 (.node 0 1 2 "div" [("id", .str "x")] [.leaf (.str "hi")]) 3
      (by decide)).1,
   (claim_C9.2.2 (.node 0 1 2 "div" [("id", .str "x")] [.leaf (.str "hi")]) 3
      (by decide)).2,
   claim_C9.1 (.vnode "p" [] [])
     (RenderState.mk none (.elem "app" [] [] []))
     (RenderState.mk (some (.vnode "p" [] []))
       (.elem "app" [] [] [.elem "p" [] [] []]))
     [.clearChildren, .append (.elem "p" [] [] [])] rfl⟩

end MiniFramework
